import Mathlib

/-!
Verification of the resilient HTTP client of `bindu/utils/http_client.py`
(class `AsyncHTTPClient` and the scoped factory `http_client`).

The retry loop of `AsyncHTTPClient.request` is embedded as a pure function:
the network is an oracle mapping the attempt index to that attempt's outcome
(a response with status and body, a connection-level error caught by the
`except (ClientConnectorError, ServerDisconnectedError)` clause, or any other
exception).  The function returns the loop's result together with the
observable trace: how many attempts were issued and which backoff sleeps were
performed.  Session lifecycle (`_ensure_session` / `close`) is embedded as a
state machine over an explicit heap of session objects, URL resolution and
header merging as pure functions on `List Char` and association lists.
-/

namespace HttpClient

/-- Outcome of one attempt of the loop body, as the code distinguishes them:
a response (line 126), a connection-level error caught at line 153
(`aiohttp.ClientConnectorError` or `aiohttp.ServerDisconnectedError`), or any
other exception, which the `try` does not catch.  Errors and bodies are
identified by opaque numeric tags. -/
inductive AttemptOutcome where
  | resp (status : Nat) (body : List Nat)
  | connErr (e : Nat)
  | otherErr (e : Nat)
deriving DecidableEq, Repr

/-- How one call of `AsyncHTTPClient.request` ends: `returned` is the
`return response` at line 151, `raisedConn` the bare `raise` at line 163,
`raisedOther` the propagation of an uncaught exception, and
`raisedExhausted` the defensive `raise aiohttp.ClientError(...)` after the
loop at line 165. -/
inductive ReqResult where
  | returned (status : Nat) (body : List Nat)
  | raisedConn (e : Nat)
  | raisedOther (e : Nat)
  | raisedExhausted
deriving DecidableEq, Repr

/-- Whether a request result is an error (a raise) as opposed to a normally
returned response. -/
def isErrorOutcome : ReqResult → Bool
  | ReqResult.returned _ _ => false
  | ReqResult.raisedConn _ => true
  | ReqResult.raisedOther _ => true
  | ReqResult.raisedExhausted => true

/-- Result of a `request` call plus its observable trace: the number of
attempts issued and the list of backoff sleeps (in seconds, in order). -/
structure RunOutcome where
  result : ReqResult
  attempts : Nat
  sleeps : List Nat
deriving DecidableEq, Repr

/-- Models `list(range(500, 600))`, the default retry statuses (line 122). -/
def defaultRetryStatuses : List Nat := List.range' 500 100

/-- Models `retry_statuses = retry_on_status or list(range(500, 600))` (line 122).
`none` models the Python `None` default; a supplied empty list is falsy in
Python, so it also falls back to the default. -/
def activeRetrySet (retryOnStatus : Option (List Nat)) : List Nat :=
  match retryOnStatus with
  | none => defaultRetryStatuses
  | some l => if l = [] then defaultRetryStatuses else l

/-- The body of `for attempt in range(self.max_retries)` (lines 124–163),
with `fuel` the number of remaining iterations (so `attempt + fuel =
maxRetries` at every call issued from `request`).  When the fuel runs out the
loop falls through to the defensive raise at line 165. -/
def loopFrom (rs : List Nat) (maxRetries : Nat) (oracle : Nat → AttemptOutcome) :
    Nat → Nat → RunOutcome
  | _, 0 => ⟨ReqResult.raisedExhausted, 0, []⟩
  | attempt, fuel + 1 =>
    match oracle attempt with
    | AttemptOutcome.resp s b =>
      if s ∈ rs ∧ attempt < maxRetries - 1 then
        let r := loopFrom rs maxRetries oracle (attempt + 1) fuel
        ⟨r.result, r.attempts + 1, 2 ^ attempt :: r.sleeps⟩
      else
        ⟨ReqResult.returned s b, 1, []⟩
    | AttemptOutcome.connErr e =>
      if attempt < maxRetries - 1 then
        let r := loopFrom rs maxRetries oracle (attempt + 1) fuel
        ⟨r.result, r.attempts + 1, 2 ^ attempt :: r.sleeps⟩
      else
        ⟨ReqResult.raisedConn e, 1, []⟩
    | AttemptOutcome.otherErr e => ⟨ReqResult.raisedOther e, 1, []⟩

/-- Models `AsyncHTTPClient.request` restricted to its retry behaviour (lines
121–165): resolve the active retry set, then run the attempt loop from
attempt 0 with `max_retries` iterations available. -/
def request (retryOnStatus : Option (List Nat)) (maxRetries : Nat)
    (oracle : Nat → AttemptOutcome) : RunOutcome :=
  loopFrom (activeRetrySet retryOnStatus) maxRetries oracle 0 maxRetries

/-- An attempt outcome on which the loop would retry (when not on the last
attempt): a response whose status is in the retry set (line 136), or a
caught connection-level error (line 153). -/
def Retriable (rs : List Nat) : AttemptOutcome → Prop
  | AttemptOutcome.resp s _ => s ∈ rs
  | AttemptOutcome.connErr _ => True
  | AttemptOutcome.otherErr _ => False

/-! ### Session lifecycle (`_ensure_session`, `close`, scoped use)

A `ClientState` is the client's `_session` reference plus the heap of all
session objects ever created by this client: `flags.length` sessions exist,
and `flags[i] = true` iff session `i` has been closed.  A fresh session gets
the next unused index, so distinct creations yield distinct sessions. -/

structure ClientState where
  sessionRef : Option Nat
  flags : List Bool
deriving DecidableEq, Repr

/-- A freshly constructed client: `self._session = None` (line 53). -/
def initState : ClientState := ⟨none, []⟩

/-- Whether session `i` is closed (`session.closed`); out-of-range indices
denote no session and count as closed. -/
def sessionClosed (st : ClientState) (i : Nat) : Bool := st.flags.getD i true

/-- Session `i` exists and is open. -/
def SessionLive (st : ClientState) (i : Nat) : Prop := st.flags.getD i true = false

/-- The test `self._session is None or self._session.closed` (line 68). -/
def sessionAbsentOrClosed (st : ClientState) : Bool :=
  match st.sessionRef with
  | none => true
  | some i => st.flags.getD i true

/-- Models `_ensure_session` (lines 66–75): if `self._session is None or
self._session.closed`, allocate a fresh session and point `_session` at it;
otherwise leave the state unchanged. -/
def ensureSession (st : ClientState) : ClientState :=
  if sessionAbsentOrClosed st then ⟨some st.flags.length, st.flags ++ [false]⟩
  else st

/-- The test `self._session and not self._session.closed` (line 79),
returning the open session's index when it passes. -/
def sessionOpenRef (st : ClientState) : Option Nat :=
  match st.sessionRef with
  | none => none
  | some i => if st.flags.getD i true then none else some i

/-- Models `close` (lines 77–81): if `self._session and not self._session.closed`,
close the session and set `self._session = None`; otherwise do nothing. -/
def close (st : ClientState) : ClientState :=
  match sessionOpenRef st with
  | none => st
  | some i => ⟨none, st.flags.set i true⟩

/-- The session-lifecycle operations a caller can invoke on a client:
`ensure` is `_ensure_session` (run by `request` at line 113 and by
`__aenter__` at line 59), `close` is `close` (run directly or by `__aexit__`
at line 64). -/
inductive Op where
  | ensure
  | close
deriving DecidableEq, Repr

def applyOp (st : ClientState) : Op → ClientState
  | Op.ensure => ensureSession st
  | Op.close => close st

/-- Run a sequence of lifecycle operations from a given state. -/
def applyOps (st : ClientState) (ops : List Op) : ClientState :=
  ops.foldl applyOp st

/-- The client's `_session` reference always points at any live session:
sessions the client has let go of are closed. -/
def RefInv (st : ClientState) : Prop :=
  ∀ j, SessionLive st j → st.sessionRef = some j

/-- Whether the body of a scoped use completed normally or raised. -/
inductive BodyOutcome where
  | ok
  | err (e : Nat)
deriving DecidableEq, Repr

/-- The scoped factory `http_client` (lines 277–313): construct a fresh
client, `await client._ensure_session()`, run the caller's block (modelled
by the lifecycle operations it performs on the client and how it ends), and
in all cases run `await client.close()` in the `finally` and propagate the
block's outcome. -/
def httpClientScope (ops : List Op) (out : BodyOutcome) : ClientState × BodyOutcome :=
  let entered := ensureSession initState
  let afterBody := applyOps entered ops
  (close afterBody, out)

/-! ### URL resolution and header merging -/

/-- Models `base_url.rstrip("/")` (line 48): drop every trailing `'/'`. -/
def rstripSlash (s : List Char) : List Char :=
  (s.reverse.dropWhile (fun c => c = '/')).reverse

/-- Models `endpoint.startswith("/")`. -/
def startsWithSlash (s : List Char) : Bool := s.head? == some '/'

/-- Line 116 combined with the constructor's stripping of `base_url`:
`url = f"{base}{endpoint}" if endpoint.startswith("/") else
f"{base}/{endpoint}"` where `base = base_url.rstrip("/")`. -/
def buildUrl (baseUrl endpoint : List Char) : List Char :=
  if startsWithSlash endpoint then rstripSlash baseUrl ++ endpoint
  else rstripSlash baseUrl ++ '/' :: endpoint

/-- Lookup in a Python dict modelled as an association list (first match). -/
def dictGet (d : List (String × String)) (k : String) : Option String :=
  (d.find? (fun p => p.1 == k)).map (fun p => p.2)

/-- Inserting one key/value pair into a Python dict: if the key is present,
its value is updated in place; otherwise the pair is appended. -/
def dictUpdate (d : List (String × String)) (k v : String) :
    List (String × String) :=
  if d.any (fun p => p.1 == k) then
    d.map (fun p => if p.1 == k then (k, v) else p)
  else d ++ [(k, v)]

/-- Models `request_headers = {**self.default_headers, **(headers or {})}`
(line 119): start from the default headers and insert each request header in
order. -/
def mergeHeaders (defaults reqHeaders : List (String × String)) :
    List (String × String) :=
  reqHeaders.foldl (fun acc kv => dictUpdate acc kv.1 kv.2) defaults

/-! ### Lemmas about the retry loop -/

theorem loopFrom_ne_exhausted (rs : List Nat) (N : Nat) (oracle : Nat → AttemptOutcome) :
    ∀ n a, a + n = N → 1 ≤ n →
      (loopFrom rs N oracle a n).result ≠ ReqResult.raisedExhausted := by
  intro n
  induction n with
  | zero => intro a _ h; exact absurd h (by omega)
  | succ m ih =>
    intro a hsum _
    cases horacle : oracle a with
    | resp s b =>
      by_cases hc : s ∈ rs ∧ a < N - 1
      · have hm : 1 ≤ m := by omega
        have hrec := ih (a + 1) (by omega) hm
        simp only [loopFrom, horacle, if_pos hc]
        exact hrec
      · simp [loopFrom, horacle, hc]
    | connErr e =>
      by_cases hc : a < N - 1
      · have hm : 1 ≤ m := by omega
        have hrec := ih (a + 1) (by omega) hm
        simp only [loopFrom, horacle, if_pos hc]
        exact hrec
      · simp [loopFrom, horacle, hc]
    | otherErr e => simp [loopFrom, horacle]

theorem loopFrom_conn_exhaust (rs : List Nat) (N : Nat) (oracle : Nat → AttemptOutcome)
    (hall : ∀ i, i < N → ∃ e, oracle i = AttemptOutcome.connErr e) :
    ∀ n a, a + n = N → 1 ≤ n →
      ∃ e, oracle (N - 1) = AttemptOutcome.connErr e ∧
        loopFrom rs N oracle a n =
          ⟨ReqResult.raisedConn e, n, (List.range' a (n - 1)).map (fun i => 2 ^ i)⟩ := by
  intro n
  induction n with
  | zero => intro a _ h; exact absurd h (by omega)
  | succ m ih =>
    intro a hsum _
    obtain ⟨e, he⟩ := hall a (by omega)
    rcases Nat.eq_zero_or_pos m with hm | hm
    · subst hm
      have ha : a = N - 1 := by omega
      refine ⟨e, ha ▸ he, ?_⟩
      simp [loopFrom, he, show ¬ a < N - 1 by omega]
    · obtain ⟨e', he', hrec⟩ := ih (a + 1) (by omega) hm
      refine ⟨e', he', ?_⟩
      have hsl : (List.range' a (m + 1 - 1)).map (fun i => 2 ^ i)
          = 2 ^ a :: (List.range' (a + 1) (m - 1)).map (fun i => 2 ^ i) := by
        conv_lhs => rw [show m + 1 - 1 = (m - 1) + 1 by omega]
        rw [List.range'_succ]
        simp
      simp only [loopFrom, he, if_pos (show a < N - 1 by omega), hrec, hsl]

theorem loopFrom_retry_exhaust (rs : List Nat) (N : Nat) (oracle : Nat → AttemptOutcome)
    (hall : ∀ i, i < N → ∃ s b, oracle i = AttemptOutcome.resp s b ∧ s ∈ rs) :
    ∀ n a, a + n = N → 1 ≤ n →
      ∃ s b, oracle (N - 1) = AttemptOutcome.resp s b ∧
        loopFrom rs N oracle a n =
          ⟨ReqResult.returned s b, n, (List.range' a (n - 1)).map (fun i => 2 ^ i)⟩ := by
  intro n
  induction n with
  | zero => intro a _ h; exact absurd h (by omega)
  | succ m ih =>
    intro a hsum _
    obtain ⟨s, b, he, hs⟩ := hall a (by omega)
    rcases Nat.eq_zero_or_pos m with hm | hm
    · subst hm
      have ha : a = N - 1 := by omega
      refine ⟨s, b, ha ▸ he, ?_⟩
      simp [loopFrom, he, show ¬ (s ∈ rs ∧ a < N - 1) by omega]
    · obtain ⟨s', b', he', hrec⟩ := ih (a + 1) (by omega) hm
      refine ⟨s', b', he', ?_⟩
      have hsl : (List.range' a (m + 1 - 1)).map (fun i => 2 ^ i)
          = 2 ^ a :: (List.range' (a + 1) (m - 1)).map (fun i => 2 ^ i) := by
        conv_lhs => rw [show m + 1 - 1 = (m - 1) + 1 by omega]
        rw [List.range'_succ]
        simp
      have hcond : s ∈ rs ∧ a < N - 1 := ⟨hs, by omega⟩
      simp only [loopFrom, he, if_pos hcond, hrec, hsl]

theorem loopFrom_uncaught (rs : List Nat) (N : Nat) (oracle : Nat → AttemptOutcome)
    (k e : Nat) (hk : k < N)
    (hpre : ∀ i, i < k → Retriable rs (oracle i))
    (hke : oracle k = AttemptOutcome.otherErr e) :
    ∀ n a, a + n = N → a ≤ k →
      loopFrom rs N oracle a n =
        ⟨ReqResult.raisedOther e, k - a + 1, (List.range' a (k - a)).map (fun i => 2 ^ i)⟩ := by
  intro n
  induction n with
  | zero => intro a h1 h2; exact absurd hk (by omega)
  | succ m ih =>
    intro a hsum hak
    rcases Nat.eq_or_lt_of_le hak with rfl | hlt
    · simp [loopFrom, hke]
    · have hrr := hpre a hlt
      have hrec := ih (a + 1) (by omega) (by omega)
      have hsl : (List.range' a (k - a)).map (fun i => 2 ^ i)
          = 2 ^ a :: (List.range' (a + 1) (k - (a + 1))).map (fun i => 2 ^ i) := by
        conv_lhs => rw [show k - a = (k - (a + 1)) + 1 by omega]
        rw [List.range'_succ]
        simp
      have hatt : k - (a + 1) + 1 + 1 = k - a + 1 := by omega
      cases horacle : oracle a with
      | resp s b =>
        have hs : s ∈ rs := by rw [horacle] at hrr; exact hrr
        have hcond : s ∈ rs ∧ a < N - 1 := ⟨hs, by omega⟩
        simp only [loopFrom, horacle, if_pos hcond, hrec, hsl, hatt]
      | connErr e2 =>
        simp only [loopFrom, horacle, if_pos (show a < N - 1 by omega), hrec, hsl, hatt]
      | otherErr e2 =>
        rw [horacle] at hrr
        exact absurd hrr (by simp [Retriable])

theorem loopFrom_attempts_pos (rs : List Nat) (N : Nat) (oracle : Nat → AttemptOutcome)
    (n a : Nat) (hn : 1 ≤ n) : 1 ≤ (loopFrom rs N oracle a n).attempts := by
  obtain ⟨m, rfl⟩ : ∃ m, n = m + 1 := ⟨n - 1, by omega⟩
  cases horacle : oracle a with
  | resp s b =>
    by_cases hc : s ∈ rs ∧ a < N - 1
    · simp only [loopFrom, horacle, if_pos hc]
      omega
    · simp only [loopFrom, horacle, if_neg hc]
      omega
  | connErr e =>
    by_cases hc : a < N - 1
    · simp only [loopFrom, horacle, if_pos hc]
      omega
    · simp only [loopFrom, horacle, if_neg hc]
      omega
  | otherErr e => simp [loopFrom, horacle]

theorem sum_pow_range (M : Nat) :
    ((List.range M).map (fun i => 2 ^ i)).sum = 2 ^ M - 1 := by
  induction M with
  | zero => simp
  | succ m ih =>
    rw [List.range_succ, List.map_append, List.sum_append, ih]
    have h1 : 1 ≤ 2 ^ m := Nat.one_le_two_pow
    simp [pow_succ]
    omega

/-! ### Claims about the retry loop -/

/-- Claim C1 counterexample: with the default retry set and `max_retries = 3`,
a target that always answers 503 does not make `request` raise: all three
attempts are exhausted on a retryable status, yet the call returns the final
503 response (after backoffs of 1s and 2s) instead of raising a client
error. -/
theorem request_all_retryable_returns_response :
    request none 3 (fun _ => AttemptOutcome.resp 503 [2]) =
      ⟨ReqResult.returned 503 [2], 3, [1, 2]⟩ ∧
    isErrorOutcome (request none 3 (fun _ => AttemptOutcome.resp 503 [2])).result =
      false := by decide

/-- Claim C1 (amended): when all `max_retries = N ≥ 1` attempts are
exhausted, the two exhaustion modes end differently: if every attempt raised
a connection-level error, `request` re-raises the final one after N attempts;
if every attempt returned a status in the active retry set, `request`
returns the final attempt's response rather than raising. -/
theorem request_exhaustion (ro : Option (List Nat)) (N : Nat) (hN : 1 ≤ N)
    (oracle : Nat → AttemptOutcome) :
    ((∀ i, i < N → ∃ e, oracle i = AttemptOutcome.connErr e) →
      ∃ e, oracle (N - 1) = AttemptOutcome.connErr e ∧
        request ro N oracle =
          ⟨ReqResult.raisedConn e, N, (List.range' 0 (N - 1)).map (fun i => 2 ^ i)⟩) ∧
    ((∀ i, i < N → ∃ s b, oracle i = AttemptOutcome.resp s b ∧ s ∈ activeRetrySet ro) →
      ∃ s b, oracle (N - 1) = AttemptOutcome.resp s b ∧
        request ro N oracle =
          ⟨ReqResult.returned s b, N, (List.range' 0 (N - 1)).map (fun i => 2 ^ i)⟩) := by
  constructor
  · intro h
    have := loopFrom_conn_exhaust (activeRetrySet ro) N oracle h N 0 (by omega) hN
    exact this
  · intro h
    have := loopFrom_retry_exhaust (activeRetrySet ro) N oracle h N 0 (by omega) hN
    exact this

theorem request_exhaustion_witness :
    ∃ e, (fun _ => AttemptOutcome.connErr 7) (2 - 1) = AttemptOutcome.connErr e ∧
      request none 2 (fun _ => AttemptOutcome.connErr 7) =
        ⟨ReqResult.raisedConn e, 2, (List.range' 0 (2 - 1)).map (fun i => 2 ^ i)⟩ :=
  (request_exhaustion none 2 (by omega) (fun _ => AttemptOutcome.connErr 7)).1
    (fun i _ => ⟨7, rfl⟩)

/-- Claim C2: for `max_retries = N ≥ 1`, if every attempt's status is in the
active retry set then exactly N attempts are made, the backoff sleeps are
`2 ^ i` seconds after attempt `i` for `i = 0 .. N - 2` in order (so none
after the final attempt), and the total backoff is `2 ^ (N - 1) - 1 =
1 + 2 + ... + 2 ^ (N - 2)` seconds. -/
theorem request_retry_backoff (ro : Option (List Nat)) (N : Nat) (hN : 1 ≤ N)
    (oracle : Nat → AttemptOutcome)
    (hall : ∀ i, i < N → ∃ s b, oracle i = AttemptOutcome.resp s b ∧ s ∈ activeRetrySet ro) :
    (request ro N oracle).attempts = N ∧
    (request ro N oracle).sleeps = (List.range (N - 1)).map (fun i => 2 ^ i) ∧
    ((request ro N oracle).sleeps).sum = 2 ^ (N - 1) - 1 := by
  obtain ⟨s, b, _, heq⟩ :=
    loopFrom_retry_exhaust (activeRetrySet ro) N oracle hall N 0 (by omega) hN
  have hreq : request ro N oracle =
      ⟨ReqResult.returned s b, N, (List.range' 0 (N - 1)).map (fun i => 2 ^ i)⟩ := heq
  rw [hreq, List.range_eq_range']
  exact ⟨rfl, rfl, by rw [← List.range_eq_range', sum_pow_range]⟩

theorem request_retry_backoff_witness :
    (request none 3 (fun _ => AttemptOutcome.resp 503 [])).attempts = 3 ∧
    (request none 3 (fun _ => AttemptOutcome.resp 503 [])).sleeps =
      (List.range (3 - 1)).map (fun i => 2 ^ i) ∧
    ((request none 3 (fun _ => AttemptOutcome.resp 503 [])).sleeps).sum = 2 ^ (3 - 1) - 1 :=
  request_retry_backoff none 3 (by omega) _
    (fun i _ => ⟨503, [], rfl, by decide⟩)

/-- Claim C3 counterexample: the claim quantifies over every caller-supplied
`retry_on_status`; supplying the empty list refutes it.  `[]` is falsy in
Python, so `retry_on_status or list(range(500, 600))` falls back to the
default set and a 500 response is retried even though `500 ∉ []`: two
attempts are made where the claim demands exactly one. -/
theorem retry_on_status_empty_falls_back :
    (500 ∉ ([] : List Nat)) ∧
    request (some []) 2 (fun _ => AttemptOutcome.resp 500 []) =
      ⟨ReqResult.returned 500 [], 2, [1]⟩ := by decide

/-- Claim C3 (amended): a NON-EMPTY caller-supplied `retry_on_status`
completely replaces the default 5xx set: the active retry set is exactly the
supplied list, a first-attempt status outside the list (such as 500 when the
list is `[429]`) is returned after exactly one attempt, and a first-attempt
status in the list (such as 429) is retried when attempts remain.  A
caller-supplied EMPTY list does not replace the default: it falls back to
the 5xx set. -/
theorem retry_on_status_override (l : List Nat) (hl : l ≠ []) (N : Nat) (hN : 1 ≤ N)
    (oracle : Nat → AttemptOutcome) (s : Nat) (b : List Nat)
    (h0 : oracle 0 = AttemptOutcome.resp s b) :
    activeRetrySet (some l) = l ∧
    activeRetrySet (some []) = defaultRetryStatuses ∧
    (s ∉ l → request (some l) N oracle = ⟨ReqResult.returned s b, 1, []⟩) ∧
    (s ∈ l → 2 ≤ N → 2 ≤ (request (some l) N oracle).attempts) := by
  have hra : activeRetrySet (some l) = l := by simp [activeRetrySet, hl]
  refine ⟨hra, rfl, ?_, ?_⟩
  · intro hs
    obtain ⟨m, rfl⟩ : ∃ m, N = m + 1 := ⟨N - 1, by omega⟩
    have hneg : ¬ (s ∈ activeRetrySet (some l) ∧ 0 < (m + 1) - 1) := by
      rw [hra]; exact fun hc => hs hc.1
    simp only [request, loopFrom, h0, if_neg hneg]
  · intro hs hN2
    obtain ⟨m, rfl⟩ : ∃ m, N = m + 1 := ⟨N - 1, by omega⟩
    have hc : s ∈ activeRetrySet (some l) ∧ 0 < (m + 1) - 1 := by
      rw [hra]; exact ⟨hs, by omega⟩
    have hpos := loopFrom_attempts_pos (activeRetrySet (some l)) (m + 1) oracle m 1 (by omega)
    simp only [request, loopFrom, h0, if_pos hc, Nat.zero_add]
    omega

theorem retry_on_status_override_witness :
    activeRetrySet (some [429]) = [429] ∧
    activeRetrySet (some []) = defaultRetryStatuses ∧
    ((429 : Nat) ∉ [429] →
      request (some [429]) 3 (fun _ => AttemptOutcome.resp 429 []) =
        ⟨ReqResult.returned 429 [], 1, []⟩) ∧
    ((429 : Nat) ∈ [429] → 2 ≤ 3 →
      2 ≤ (request (some [429]) 3 (fun _ => AttemptOutcome.resp 429 [])).attempts) :=
  retry_on_status_override [429] (by decide) 3 (by omega) _ 429 [] rfl

/-- Claim C4: with `max_retries ≥ 1` the defensive raise after the loop
(line 165) is unreachable — whatever the oracle does, `request` ends by
returning a response or raising from within the loop, never with the
generic exhausted-retries error. -/
theorem request_final_raise_unreachable (ro : Option (List Nat)) (N : Nat) (hN : 1 ≤ N)
    (oracle : Nat → AttemptOutcome) :
    (request ro N oracle).result ≠ ReqResult.raisedExhausted :=
  loopFrom_ne_exhausted (activeRetrySet ro) N oracle N 0 (by omega) hN

theorem request_final_raise_unreachable_witness :
    (request none 1 (fun _ => AttemptOutcome.resp 200 [])).result ≠
      ReqResult.raisedExhausted :=
  request_final_raise_unreachable none 1 (by omega) _

/-- Claim C5: if the first attempt returns a status outside the active retry
set, exactly one attempt is made, no backoff sleep occurs, and that very
response — same status, same body — is returned normally (not raised). -/
theorem request_nonretryable_first (ro : Option (List Nat)) (N : Nat) (hN : 1 ≤ N)
    (oracle : Nat → AttemptOutcome) (s : Nat) (b : List Nat)
    (h0 : oracle 0 = AttemptOutcome.resp s b) (hs : s ∉ activeRetrySet ro) :
    request ro N oracle = ⟨ReqResult.returned s b, 1, []⟩ := by
  obtain ⟨m, rfl⟩ : ∃ m, N = m + 1 := ⟨N - 1, by omega⟩
  have hneg : ¬ (s ∈ activeRetrySet ro ∧ 0 < (m + 1) - 1) := fun hc => hs hc.1
  simp only [request, loopFrom, h0, if_neg hneg]

theorem request_nonretryable_first_witness :
    request none 3 (fun _ => AttemptOutcome.resp 404 [5, 6]) =
      ⟨ReqResult.returned 404 [5, 6], 1, []⟩ :=
  request_nonretryable_first none 3 (by omega) _ 404 [5, 6] rfl (by decide)

/-- Claim C10: only caught connection-level errors are retried.  If the
attempts before index `k` would each have been retried and attempt `k`
raises any other exception, that exception propagates at once: `k + 1`
attempts in total, no backoff sleep after the failing attempt, and no
further attempts no matter how large `max_retries` is. -/
theorem request_uncaught_propagates (ro : Option (List Nat)) (N k e : Nat) (hk : k < N)
    (oracle : Nat → AttemptOutcome)
    (hpre : ∀ i, i < k → Retriable (activeRetrySet ro) (oracle i))
    (hke : oracle k = AttemptOutcome.otherErr e) :
    request ro N oracle =
      ⟨ReqResult.raisedOther e, k + 1, (List.range k).map (fun i => 2 ^ i)⟩ := by
  have h := loopFrom_uncaught (activeRetrySet ro) N oracle k e hk hpre hke N 0
    (by omega) (by omega)
  simpa [request, List.range_eq_range'] using h

theorem request_uncaught_propagates_witness :
    request none 3
        (fun i => if i = 0 then AttemptOutcome.resp 500 [] else AttemptOutcome.otherErr 9) =
      ⟨ReqResult.raisedOther 9, 1 + 1, (List.range 1).map (fun i => 2 ^ i)⟩ :=
  request_uncaught_propagates none 3 1 9 (by omega) _
    (fun i hi => by
      have h0 : i = 0 := by omega
      subst h0
      show (500 : Nat) ∈ activeRetrySet none
      decide)
    rfl

/-! ### Lemmas about the session state machine -/

theorem getD_concat_length (l : List Bool) (b d : Bool) : (l ++ [b]).getD l.length d = b := by
  induction l with
  | nil => rfl
  | cons x xs ih => simp [ih]

theorem getD_set_self (l : List Bool) (i : Nat) (a d : Bool) (h : i < l.length) :
    (l.set i a).getD i d = a := by
  induction l generalizing i with
  | nil => simp at h
  | cons x xs ih =>
    cases i with
    | zero => rfl
    | succ n => simpa using ih n (by simpa using h)

theorem getD_set_ne (l : List Bool) (i j : Nat) (a d : Bool) (h : i ≠ j) :
    (l.set i a).getD j d = l.getD j d := by
  induction l generalizing i j with
  | nil => simp
  | cons x xs ih =>
    cases i with
    | zero =>
      cases j with
      | zero => exact absurd rfl h
      | succ m => simp
    | succ n =>
      cases j with
      | zero => simp
      | succ m => simpa using ih n m (by omega)

theorem refInv_init : RefInv initState := by
  intro j h
  simp only [SessionLive, initState] at h
  rw [List.getD_eq_default _ _ (by simp)] at h
  simp at h

theorem live_lt_length (st : ClientState) (j : Nat) (h : SessionLive st j) :
    j < st.flags.length := by
  by_contra hc
  simp only [SessionLive] at h
  rw [List.getD_eq_default _ _ (by omega)] at h
  simp at h

theorem sessionAbsentOrClosed_true (st : ClientState)
    (h : st.sessionRef = none ∨ ∃ i, st.sessionRef = some i ∧ st.flags.getD i true = true) :
    sessionAbsentOrClosed st = true := by
  rcases h with h | ⟨i, h1, h2⟩
  · simp [sessionAbsentOrClosed, h]
  · simp only [sessionAbsentOrClosed, h1]
    exact h2

theorem sessionAbsentOrClosed_false (st : ClientState) (i : Nat)
    (h1 : st.sessionRef = some i) (h2 : st.flags.getD i true = false) :
    sessionAbsentOrClosed st = false := by
  simp only [sessionAbsentOrClosed, h1]
  exact h2

theorem ensureSession_eq_of_dead (st : ClientState)
    (h : st.sessionRef = none ∨ ∃ i, st.sessionRef = some i ∧ st.flags.getD i true = true) :
    ensureSession st = ⟨some st.flags.length, st.flags ++ [false]⟩ := by
  simp only [ensureSession]
  rw [sessionAbsentOrClosed_true st h]
  rfl

theorem ensureSession_eq_of_live (st : ClientState) (j : Nat)
    (h1 : st.sessionRef = some j) (h2 : st.flags.getD j true = false) :
    ensureSession st = st := by
  simp only [ensureSession]
  rw [sessionAbsentOrClosed_false st j h1 h2]
  rfl

theorem ensureSession_live_ref (st : ClientState) :
    ∃ j, (ensureSession st).sessionRef = some j ∧ SessionLive (ensureSession st) j := by
  cases href : st.sessionRef with
  | none =>
    have he := ensureSession_eq_of_dead st (Or.inl href)
    exact ⟨st.flags.length, by rw [he], by rw [he]; exact getD_concat_length _ _ _⟩
  | some i =>
    by_cases hcl : st.flags.getD i true
    · have he := ensureSession_eq_of_dead st (Or.inr ⟨i, href, hcl⟩)
      exact ⟨st.flags.length, by rw [he], by rw [he]; exact getD_concat_length _ _ _⟩
    · have hlive : st.flags.getD i true = false := by
        simp only [Bool.not_eq_true] at hcl
        exact hcl
      have he := ensureSession_eq_of_live st i href hlive
      exact ⟨i, by rw [he, href], by rw [he]; exact hlive⟩

theorem ensureSession_idem (st : ClientState) :
    ensureSession (ensureSession st) = ensureSession st := by
  obtain ⟨j, h1, h2⟩ := ensureSession_live_ref st
  exact ensureSession_eq_of_live _ j h1 h2

theorem refInv_ensureSession (st : ClientState) (h : RefInv st) :
    RefInv (ensureSession st) := by
  have hnolive :
      (st.sessionRef = none ∨ ∃ i, st.sessionRef = some i ∧ st.flags.getD i true = true) →
      ∀ j, ¬ SessionLive st j := by
    rintro (hn | ⟨i, h1, h2⟩) j hj
    · have := h j hj
      rw [hn] at this
      cases this
    · have := h j hj
      rw [h1] at this
      injection this with hji
      subst hji
      rw [hj] at h2
      cases h2
  cases href : st.sessionRef with
  | none =>
    have he := ensureSession_eq_of_dead st (Or.inl href)
    rw [he]
    intro j hj
    simp only [SessionLive] at hj
    rcases lt_trichotomy j st.flags.length with hlt | heq | hgt
    · rw [List.getD_append _ _ _ j hlt] at hj
      exact absurd hj (fun hx => hnolive (Or.inl href) j hx)
    · rw [heq]
    · rw [List.getD_eq_default _ _ (by simp; omega)] at hj
      cases hj
  | some i =>
    by_cases hcl : st.flags.getD i true
    · have he := ensureSession_eq_of_dead st (Or.inr ⟨i, href, hcl⟩)
      rw [he]
      intro j hj
      simp only [SessionLive] at hj
      rcases lt_trichotomy j st.flags.length with hlt | heq | hgt
      · rw [List.getD_append _ _ _ j hlt] at hj
        exact absurd hj (fun hx => hnolive (Or.inr ⟨i, href, hcl⟩) j hx)
      · rw [heq]
      · rw [List.getD_eq_default _ _ (by simp; omega)] at hj
        cases hj
    · have hlive : st.flags.getD i true = false := by
        simp only [Bool.not_eq_true] at hcl
        exact hcl
      rw [ensureSession_eq_of_live st i href hlive]
      exact h

theorem sessionOpenRef_eq_none (st : ClientState)
    (h : st.sessionRef = none ∨ ∃ i, st.sessionRef = some i ∧ st.flags.getD i true = true) :
    sessionOpenRef st = none := by
  rcases h with h | ⟨i, h1, h2⟩
  · simp [sessionOpenRef, h]
  · simp only [sessionOpenRef, h1]
    rw [h2]
    rfl

theorem sessionOpenRef_eq_some (st : ClientState) (i : Nat)
    (h1 : st.sessionRef = some i) (h2 : st.flags.getD i true = false) :
    sessionOpenRef st = some i := by
  simp only [sessionOpenRef, h1]
  rw [h2]
  rfl

theorem close_eq_of_dead (st : ClientState)
    (h : st.sessionRef = none ∨ ∃ i, st.sessionRef = some i ∧ st.flags.getD i true = true) :
    close st = st := by
  simp only [close]
  rw [sessionOpenRef_eq_none st h]

theorem close_eq_of_live (st : ClientState) (i : Nat)
    (h1 : st.sessionRef = some i) (h2 : st.flags.getD i true = false) :
    close st = ⟨none, st.flags.set i true⟩ := by
  simp only [close]
  rw [sessionOpenRef_eq_some st i h1 h2]

theorem close_cases (st : ClientState) :
    (close st = st ∧
      (st.sessionRef = none ∨ ∃ i, st.sessionRef = some i ∧ st.flags.getD i true = true)) ∨
    (∃ i, st.sessionRef = some i ∧ st.flags.getD i true = false ∧
      close st = ⟨none, st.flags.set i true⟩) := by
  cases href : st.sessionRef with
  | none => exact Or.inl ⟨close_eq_of_dead st (Or.inl href), Or.inl rfl⟩
  | some i =>
    by_cases hcl : st.flags.getD i true
    · exact Or.inl ⟨close_eq_of_dead st (Or.inr ⟨i, href, hcl⟩), Or.inr ⟨i, rfl, hcl⟩⟩
    · have hlive : st.flags.getD i true = false := by
        simp only [Bool.not_eq_true] at hcl
        exact hcl
      exact Or.inr ⟨i, rfl, hlive, close_eq_of_live st i href hlive⟩

theorem close_not_live (st : ClientState) (h : RefInv st) (j : Nat) :
    ¬ SessionLive (close st) j := by
  intro hj
  rcases close_cases st with ⟨heq, hdead⟩ | ⟨i, h1, h2, heq⟩
  · rw [heq] at hj
    have href := h j hj
    rcases hdead with hn | ⟨i, hi1, hi2⟩
    · rw [href] at hn
      cases hn
    · rw [href] at hi1
      injection hi1 with hji
      subst hji
      simp only [SessionLive] at hj
      rw [hj] at hi2
      cases hi2
  · rw [heq] at hj
    simp only [SessionLive] at hj
    by_cases hij : i = j
    · subst hij
      have hlen : i < st.flags.length := live_lt_length st i h2
      rw [getD_set_self _ _ _ _ hlen] at hj
      cases hj
    · rw [getD_set_ne _ _ _ _ _ hij] at hj
      have := h j hj
      rw [h1] at this
      injection this with hji
      exact hij hji

theorem refInv_close (st : ClientState) (h : RefInv st) : RefInv (close st) := by
  intro j hj
  exact absurd hj (close_not_live st h j)

theorem refInv_applyOp (st : ClientState) (h : RefInv st) (op : Op) :
    RefInv (applyOp st op) := by
  cases op with
  | ensure => exact refInv_ensureSession st h
  | close => exact refInv_close st h

theorem refInv_applyOps (st : ClientState) (h : RefInv st) (ops : List Op) :
    RefInv (applyOps st ops) := by
  induction ops generalizing st with
  | nil => exact h
  | cons op t ih => exact ih (applyOp st op) (refInv_applyOp st h op)

theorem close_ref_dead (st : ClientState) :
    (close st).sessionRef = none ∨
      ∃ i, (close st).sessionRef = some i ∧ (close st).flags.getD i true = true := by
  rcases close_cases st with ⟨heq, hdead⟩ | ⟨i, h1, h2, heq⟩
  · rw [heq]
    exact hdead
  · rw [heq]
    exact Or.inl rfl

theorem ensure_close_fresh (st : ClientState) :
    (ensureSession (close st)).sessionRef = some ((close st).flags.length) ∧
    SessionLive (ensureSession (close st)) ((close st).flags.length) := by
  have he := ensureSession_eq_of_dead (close st) (close_ref_dead st)
  exact ⟨by rw [he], by rw [he]; exact getD_concat_length _ _ _⟩

theorem live_unique (st : ClientState) (h : RefInv st) (i j : Nat)
    (hi : SessionLive st i) (hj : SessionLive st j) : i = j := by
  have h1 := h i hi
  have h2 := h j hj
  rw [h1] at h2
  injection h2

/-! ### Claims about the session lifecycle -/

/-- Claim C6: over every sequence of lifecycle operations on a fresh client:
(1) at most one session is live at any time; (2) `_ensure_session` — run at
the start of every request and at scope entry — always leaves the client
holding a live session, so a closed session is never reused; (3) after
`close`, the next operation transparently creates a brand-new session (its
index equals the number of sessions ever created, so it is none of the
earlier ones) without raising; (4) `_ensure_session` is idempotent, so two
sequential requests with no intervening close use the identical session. -/
theorem session_lifecycle (ops : List Op) :
    (∀ i j, SessionLive (applyOps initState ops) i →
      SessionLive (applyOps initState ops) j → i = j) ∧
    (∃ j, (ensureSession (applyOps initState ops)).sessionRef = some j ∧
      SessionLive (ensureSession (applyOps initState ops)) j) ∧
    ((ensureSession (close (applyOps initState ops))).sessionRef =
        some ((close (applyOps initState ops)).flags.length) ∧
      SessionLive (ensureSession (close (applyOps initState ops)))
        ((close (applyOps initState ops)).flags.length)) ∧
    ensureSession (ensureSession (applyOps initState ops)) =
      ensureSession (applyOps initState ops) := by
  have hinv : RefInv (applyOps initState ops) := refInv_applyOps _ refInv_init _
  exact ⟨live_unique _ hinv, ensureSession_live_ref _, ensure_close_fresh _,
    ensureSession_idem _⟩

theorem session_lifecycle_witness :
    (0 : Nat) = 0 ∧
    (∃ j, (ensureSession (applyOps initState [Op.ensure])).sessionRef = some j ∧
      SessionLive (ensureSession (applyOps initState [Op.ensure])) j) :=
  ⟨(session_lifecycle [Op.ensure]).1 0 0 rfl rfl,
   (session_lifecycle [Op.ensure]).2.1⟩

/-- Claim C7: the scoped factory `http_client` and the scope protocol
guarantee a session at entry and closure on every exit path: entry creates
session 0 on the fresh client (created because absent), and whatever
lifecycle operations the body performs and however it ends — normally or
with an error — after the scope no session is live and the body's outcome is
propagated unchanged. -/
theorem scoped_factory_closes (ops : List Op) (out : BodyOutcome) :
    ((ensureSession initState).sessionRef = some 0 ∧
      SessionLive (ensureSession initState) 0) ∧
    (∀ j, ¬ SessionLive (httpClientScope ops out).1 j) ∧
    (httpClientScope ops out).2 = out := by
  refine ⟨⟨rfl, rfl⟩, ?_, rfl⟩
  intro j
  have hinv : RefInv (applyOps (ensureSession initState) ops) :=
    refInv_applyOps _ (refInv_ensureSession _ refInv_init) _
  exact close_not_live _ hinv j

theorem scoped_factory_closes_witness :
    ¬ SessionLive (httpClientScope [Op.ensure] (BodyOutcome.err 3)).1 0 :=
  (scoped_factory_closes [Op.ensure] (BodyOutcome.err 3)).2.1 0

/-! ### Claim about URL resolution -/

/-- Claim C8: the resolved URL is the base URL with trailing slashes
stripped, joined to the endpoint by exactly one separating slash whether or
not the endpoint begins with one: for any endpoint `p` that does not itself
begin with a slash, both `p` and `'/' :: p` resolve to
`rstripSlash base ++ '/' :: p`; in particular `"https://api.x.com/"` with
`"/v1/foo"` and with `"v1/foo"` both resolve to
`"https://api.x.com/v1/foo"`. -/
theorem buildUrl_single_slash (base p : List Char) (hp : p.head? ≠ some '/') :
    buildUrl base ('/' :: p) = rstripSlash base ++ '/' :: p ∧
    buildUrl base p = rstripSlash base ++ '/' :: p ∧
    buildUrl "https://api.x.com/".toList "/v1/foo".toList =
      "https://api.x.com/v1/foo".toList ∧
    buildUrl "https://api.x.com/".toList "v1/foo".toList =
      "https://api.x.com/v1/foo".toList := by
  refine ⟨?_, ?_, by decide, by decide⟩
  · simp [buildUrl, startsWithSlash]
  · have hs : startsWithSlash p = false := by
      simp only [startsWithSlash]
      rw [beq_eq_false_iff_ne]
      exact hp
    simp [buildUrl, hs]

theorem buildUrl_single_slash_witness :
    buildUrl "https://api.x.com/".toList ('/' :: "v1/foo".toList) =
      rstripSlash "https://api.x.com/".toList ++ '/' :: "v1/foo".toList ∧
    buildUrl "https://api.x.com/".toList "v1/foo".toList =
      rstripSlash "https://api.x.com/".toList ++ '/' :: "v1/foo".toList ∧
    buildUrl "https://api.x.com/".toList "/v1/foo".toList =
      "https://api.x.com/v1/foo".toList ∧
    buildUrl "https://api.x.com/".toList "v1/foo".toList =
      "https://api.x.com/v1/foo".toList :=
  buildUrl_single_slash "https://api.x.com/".toList "v1/foo".toList (by decide)

/-! ### Lemmas about header merging -/

theorem dictGet_eq_none_of_not_mem (r : List (String × String)) (k : String)
    (h : k ∉ r.map Prod.fst) : dictGet r k = none := by
  induction r with
  | nil => rfl
  | cons p t ih =>
    simp only [List.map_cons, List.mem_cons, not_or] at h
    obtain ⟨h1, h2⟩ := h
    have hb : (p.1 == k) = false := by
      rw [beq_eq_false_iff_ne]
      exact fun he => h1 he.symm
    simp only [dictGet]
    rw [List.find?_cons_of_neg _ (by simp [hb])]
    have ht := ih h2
    simp only [dictGet] at ht
    exact ht

theorem find?_map_update_self (d : List (String × String)) (k v : String)
    (hany : d.any (fun p => p.1 == k) = true) :
    (d.map (fun p => if p.1 == k then (k, v) else p)).find? (fun q => q.1 == k) =
      some (k, v) := by
  induction d with
  | nil => simp at hany
  | cons p t ih =>
    by_cases hp : (p.1 == k) = true
    · simp only [List.map_cons, if_pos hp]
      rw [List.find?_cons_of_pos _ (by simp)]
    · simp only [List.map_cons, if_neg hp]
      rw [List.find?_cons_of_neg (p := fun (q : String × String) => q.1 == k) _ hp]
      apply ih
      have hpf : (p.1 == k) = false := by
        simp only [Bool.not_eq_true] at hp
        exact hp
      rw [List.any_cons, hpf] at hany
      simpa using hany

theorem find?_append_single_self (d : List (String × String)) (k v : String)
    (hnone : d.any (fun p => p.1 == k) = false) :
    (d ++ [(k, v)]).find? (fun q => q.1 == k) = some (k, v) := by
  induction d with
  | nil =>
    rw [List.nil_append, List.find?_cons_of_pos _ (by simp)]
  | cons p t ih =>
    rw [List.any_cons] at hnone
    rcases Bool.or_eq_false_iff.mp hnone with ⟨h1, h2⟩
    rw [List.cons_append, List.find?_cons_of_neg _ (by simp [h1])]
    exact ih h2

theorem dictGet_dictUpdate_self (d : List (String × String)) (k v : String) :
    dictGet (dictUpdate d k v) k = some v := by
  by_cases hany : d.any (fun p => p.1 == k)
  · simp only [dictGet, dictUpdate, if_pos hany]
    rw [find?_map_update_self d k v hany]
    rfl
  · have hf : d.any (fun p => p.1 == k) = false := by
      simp only [Bool.not_eq_true] at hany
      exact hany
    simp only [dictGet, dictUpdate, if_neg hany]
    rw [find?_append_single_self d k v hf]
    rfl

theorem find?_map_update_ne (d : List (String × String)) (k' v' k : String)
    (h : k' ≠ k) :
    (d.map (fun p => if p.1 == k' then (k', v') else p)).find? (fun q => q.1 == k) =
      d.find? (fun q => q.1 == k) := by
  induction d with
  | nil => rfl
  | cons p t ih =>
    by_cases hp : (p.1 == k') = true
    · have hp1 : p.1 = k' := by simpa using hp
      simp only [List.map_cons, if_pos hp]
      rw [List.find?_cons_of_neg _ (by simp [h]), List.find?_cons_of_neg _ (by simp [hp1, h])]
      exact ih
    · simp only [List.map_cons, if_neg hp]
      by_cases hpk : (p.1 == k) = true
      · rw [List.find?_cons_of_pos (p := fun (q : String × String) => q.1 == k) _ hpk,
          List.find?_cons_of_pos (p := fun (q : String × String) => q.1 == k) _ hpk]
      · rw [List.find?_cons_of_neg (p := fun (q : String × String) => q.1 == k) _ hpk,
          List.find?_cons_of_neg (p := fun (q : String × String) => q.1 == k) _ hpk]
        exact ih

theorem find?_append_single_ne (d : List (String × String)) (k' v' k : String)
    (h : k' ≠ k) :
    (d ++ [(k', v')]).find? (fun q => q.1 == k) = d.find? (fun q => q.1 == k) := by
  induction d with
  | nil =>
    rw [List.nil_append, List.find?_cons_of_neg _ (by simp [h])]
  | cons p t ih =>
    by_cases hpk : (p.1 == k) = true
    · rw [List.cons_append, List.find?_cons_of_pos (p := fun (q : String × String) => q.1 == k) _ hpk,
        List.find?_cons_of_pos (p := fun (q : String × String) => q.1 == k) _ hpk]
    · rw [List.cons_append, List.find?_cons_of_neg (p := fun (q : String × String) => q.1 == k) _ hpk,
        List.find?_cons_of_neg (p := fun (q : String × String) => q.1 == k) _ hpk]
      exact ih

theorem dictGet_dictUpdate_ne (d : List (String × String)) (k' v' k : String)
    (h : k' ≠ k) : dictGet (dictUpdate d k' v') k = dictGet d k := by
  by_cases hany : d.any (fun p => p.1 == k')
  · simp only [dictGet, dictUpdate, if_pos hany]
    rw [find?_map_update_ne d k' v' k h]
  · simp only [dictGet, dictUpdate, if_neg hany]
    rw [find?_append_single_ne d k' v' k h]

theorem dictGet_mergeHeaders (d r : List (String × String))
    (hr : (r.map Prod.fst).Nodup) (k : String) :
    dictGet (mergeHeaders d r) k = (dictGet r k).or (dictGet d k) := by
  induction r generalizing d with
  | nil => rfl
  | cons kv t ih =>
    obtain ⟨k1, v1⟩ := kv
    simp only [List.map_cons, List.nodup_cons] at hr
    obtain ⟨hk1, ht⟩ := hr
    have hfold : mergeHeaders d ((k1, v1) :: t) = mergeHeaders (dictUpdate d k1 v1) t := rfl
    rw [hfold, ih (dictUpdate d k1 v1) ht]
    by_cases hkk : k1 = k
    · subst hkk
      have hhead : dictGet ((k1, v1) :: t) k1 = some v1 := by
        simp only [dictGet]
        rw [List.find?_cons_of_pos _ (by simp)]
        rfl
      rw [dictGet_eq_none_of_not_mem t k1 hk1, hhead, dictGet_dictUpdate_self]
      rfl
    · have hhead : dictGet ((k1, v1) :: t) k = dictGet t k := by
        simp only [dictGet]
        rw [List.find?_cons_of_neg _ (by simp [hkk])]
      rw [hhead, dictGet_dictUpdate_ne d k1 v1 k hkk]

/-! ### Claim about header merging -/

/-- Claim C9: the effective request headers are the default headers overlaid
with the per-request headers, the per-request value winning on every key
collision: looking up any key in the merged dict gives the request value if
the key is present there and the default value otherwise; and merging
defaults `{"A": "1"}` with request headers `{"A": "2", "B": "3"}` gives
`{"A": "2", "B": "3"}`. -/
theorem mergeHeaders_request_wins (d r : List (String × String))
    (hr : (r.map Prod.fst).Nodup) (k : String) :
    dictGet (mergeHeaders d r) k = (dictGet r k).or (dictGet d k) ∧
    mergeHeaders [("A", "1")] [("A", "2"), ("B", "3")] = [("A", "2"), ("B", "3")] :=
  ⟨dictGet_mergeHeaders d r hr k, by decide⟩

theorem mergeHeaders_request_wins_witness :
    dictGet (mergeHeaders [("A", "1")] [("A", "2"), ("B", "3")]) "A" =
      (dictGet [("A", "2"), ("B", "3")] "A").or (dictGet [("A", "1")] "A") ∧
    mergeHeaders [("A", "1")] [("A", "2"), ("B", "3")] = [("A", "2"), ("B", "3")] :=
  mergeHeaders_request_wins [("A", "1")] [("A", "2"), ("B", "3")] (by decide) "A"

end HttpClient
